import Mathlib

/-!
# Verification of the XmlBeautify pretty-printer (domutils.js)

Shallow embedding of the `XmlBeautify` component of
`src/plugins/org.wso2.developerstudio.eclipse.ds.editor/DSSEditor/assets/js/domutils.js`
(lines 115-304): `hasXmlDef`, `getEncoding`, `beautify` and `_parseInternally`
(here `parseInternally`).

The XML parser (`DOMParser`) is an external collaborator, not part of this
repository's code: a parsed document is modelled by the inductive tree `XNode`,
whose accessors (`tagName`, `attributes`, `children`, `childNodes`,
`textContent`, `innerHTML`) reproduce the standard DOM semantics the script is
written against: on element nodes `children` is the collection of *element*
children while `childNodes` also holds character-data nodes; on character-data
nodes `tagName`, `children`, `attributes` and `innerHTML` are undefined
(modelled with `Option`), while `childNodes` is a defined empty collection.
`beautify` receives the parsed root element (`doc.children[0]` in the source)
as an argument.

JavaScript strings are modelled as Lean `String`s; `indexOf`, `substr` and
`toLowerCase` are modelled over the character list, faithful to their
JavaScript clamping behaviour at the call sites that appear in the source.
-/

namespace DomUtils

/-- A node of the parsed XML document tree, as exposed by the external parser:
element nodes carry a tag name, an ordered attribute list (name, value) and an
ordered child-node list; `text` is a plain character-data node and `cdata` a
CDATA section node. -/
inductive XNode where
  | elem (tagName : String) (attributes : List (String × String)) (childNodes : List XNode)
  | text (data : String)
  | cdata (data : String)

/-- Whether a node is an element node (member of the DOM `children` collection). -/
def isElem : XNode → Bool
  | .elem _ _ _ => true
  | _ => false

mutual
/-- DOM `node.textContent`: the concatenation of all descendant character data,
in document order. -/
def textContent : XNode → String
  | .elem _ _ cs => textContentList cs
  | .text s => s
  | .cdata s => s

/-- The `textContent` concatenation over a node list. -/
def textContentList : List XNode → String
  | [] => ""
  | c :: rest => textContent c ++ textContentList rest
end

/-- DOM `element.children` accessor: the collection of element children for an
element node, undefined (`none`) on character-data nodes. -/
def childrenAcc : XNode → Option (List XNode)
  | .elem _ _ cs => some (cs.filter isElem)
  | _ => none

/-- DOM `node.childNodes` accessor: all child nodes for an element node, a
defined empty collection on character-data nodes. -/
def childNodesAcc : XNode → Option (List XNode)
  | .elem _ _ cs => some cs
  | .text _ => some []
  | .cdata _ => some []

/-- DOM `element.tagName` accessor: defined on element nodes only. -/
def tagNameAcc : XNode → Option String
  | .elem tag _ _ => some tag
  | _ => none

/-- XMLSerializer escaping of a text node's data (`&`, `<`, `>` become entities). -/
def escapeXmlText (s : String) : String :=
  String.join (s.toList.map (fun c =>
    if c = '&' then "&amp;"
    else if c = '<' then "&lt;"
    else if c = '>' then "&gt;"
    else String.mk [c]))

/-- XMLSerializer escaping of an attribute value (`&`, `<`, `"` become entities). -/
def escapeXmlAttr (s : String) : String :=
  String.join (s.toList.map (fun c =>
    if c = '&' then "&amp;"
    else if c = '<' then "&lt;"
    else if c = '"' then "&quot;"
    else String.mk [c]))

mutual
/-- XML serialization of a single node, as the host serializer produces it
(used only through `innerHTML`). -/
def serializeNode : XNode → String
  | .elem tag attrs cs =>
      "<" ++ tag
        ++ String.join (attrs.map (fun a => " " ++ a.1 ++ "=\"" ++ escapeXmlAttr a.2 ++ "\""))
        ++ (match cs with
            | [] => "/>"
            | _ :: _ => ">" ++ serializeNodeList cs ++ "</" ++ tag ++ ">")
  | .text s => escapeXmlText s
  | .cdata s => "<![CDATA[" ++ s ++ "]]>"

/-- XML serialization of a node list, in document order. -/
def serializeNodeList : List XNode → String
  | [] => ""
  | c :: rest => serializeNode c ++ serializeNodeList rest
end

/-- DOM `element.innerHTML` accessor: the serialized child markup of an element
node, undefined (`none`) on character-data nodes. -/
def innerHTML : XNode → Option String
  | .elem _ _ cs => some (serializeNodeList cs)
  | _ => none

/-- First index at which `need` occurs as a contiguous sublist of `hay`
(`none` when it does not occur); the empty pattern occurs at index 0,
matching JavaScript `String.prototype.indexOf`. -/
def findSub (hay need : List Char) : Option Nat :=
  if need.isPrefixOf hay then some 0
  else
    match hay with
    | [] => none
    | _ :: t => (findSub t need).map (· + 1)

/-- JavaScript `s.indexOf(sub)`: first occurrence index, `-1` when absent. -/
def jsIndexOf (s sub : String) : Int :=
  match findSub s.toList sub.toList with
  | some n => (n : Int)
  | none => -1

/-- JavaScript `s.substr(start, len)` at the call sites of the source: `start`
is always nonnegative there, and a nonpositive or overlong `len` clamps
(negative length yields the empty string). -/
def jsSubstr (s : String) (start len : Int) : String :=
  String.mk (((s.toList).drop start.toNat).take len.toNat)

/-- JavaScript `s.toLowerCase()` (per-character lowercasing). -/
def jsToLower (s : String) : String :=
  String.mk (s.toList.map Char.toLower)

/-- JavaScript `s.indexOf(sub) != -1` test. -/
def hasSub (s sub : String) : Bool :=
  decide (jsIndexOf s sub ≠ -1)

/-- Source `XmlBeautify.prototype.hasXmlDef` (domutils.js lines 124-126):
`xmlText.indexOf('<?xml') >= 0`. -/
def hasXmlDef (xmlText : String) : Bool :=
  decide (0 ≤ jsIndexOf xmlText "<?xml")

/-- Source `XmlBeautify.prototype.getEncoding` (domutils.js lines 127-137): `none`
models the JavaScript `null` returned when no declaration is present;
otherwise the substring of the original text from just past the first
case-insensitive occurrence of `encoding="` up to the first occurrence of
`"?>` in the whole text. -/
def getEncoding (xmlText : String) : Option String :=
  if hasXmlDef xmlText = false then none
  else
    let encodingStartPos := jsIndexOf (jsToLower xmlText) "encoding=\"" + ("encoding=\"".length : Int)
    let encodingEndPos := jsIndexOf xmlText "\"?>"
    some (jsSubstr xmlText encodingStartPos (encodingEndPos - encodingStartPos))

/-- The blank-stripping of `_parseInternally` lines 195: the chain
`.replace(/ /g,'').replace(/\r?\n/g,'').replace(/\n/g,'').replace(/\t/g,'')`.
The middle step removes `\r\n` pairs and lone `\n`; a `\r` not followed by
`\n` survives, exactly as in the source's regular expression. -/
def stripNewlinePairs : List Char → List Char
  | [] => []
  | '\r' :: '\n' :: rest => stripNewlinePairs rest
  | '\n' :: rest => stripNewlinePairs rest
  | c :: rest => c :: stripNewlinePairs rest

/-- The `blankReplacedElementContent` value (domutils.js line 195). -/
def blankReplaced (s : String) : String :=
  String.mk
    ((((s.toList.filter (fun c => c != ' ')) |> stripNewlinePairs).filter
        (fun c => c != '\n')).filter (fun c => c != '\t'))

/-- The `elementTextContent` value after lines 193-199: the node's `textContent`, reset
to the empty string when the blank-stripped content is empty. -/
def adjustedTextContent (element : XNode) : String :=
  if (blankReplaced (textContent element)).length == 0 then ""
  else textContent element

/-- JavaScript truthiness test `coll != undefined && coll.length > 0` on an
optional node collection. -/
def jsCollectionHasItems : Option (List XNode) → Bool
  | some l => decide (0 < l.length)
  | none => false

/-- The `elementHasNoChildren` flag (domutils.js line 201): note the source combines
the two accessor checks with `||` (a disjunction of negations). -/
def elementHasNoChildren (element : XNode) : Bool :=
  !(jsCollectionHasItems (childrenAcc element)) || !(jsCollectionHasItems (childNodesAcc element))

/-- The `elementHasValueOrChildren` flag (domutils.js line 202): the adjusted text
content is a nonempty string. -/
def elementHasValueOrChildren (element : XNode) : Bool :=
  decide (0 < (adjustedTextContent element).length)

/-- The `elementHasItsValue` flag (domutils.js line 203). -/
def elementHasItsValue (element : XNode) : Bool :=
  elementHasNoChildren element && elementHasValueOrChildren element

/-- The `isEmptyElement` flag (domutils.js line 204). -/
def isEmptyElement (element : XNode) : Bool :=
  elementHasNoChildren element && !(elementHasValueOrChildren element)

/-- The `valueOfElement` computation (domutils.js lines 214-228): set only when
`elementHasItsValue`; reads `element.innerHTML`, falling back to
`element.textContent` when that accessor is undefined, and re-wraps the
aggregated text content in a fresh CDATA wrapper when the inner markup
contains both CDATA markers. -/
def valueOfElement (element : XNode) : String :=
  if elementHasItsValue element then
    let val := (innerHTML element).getD (textContent element)
    if hasSub val "<![CDATA[" && hasSub val "]]>" then
      "<![CDATA[" ++ adjustedTextContent element ++ "]]>"
    else adjustedTextContent element
  else ""

/-- The attribute emission loop (domutils.js lines 242-247):
`' ' + attr.name + '=' + '"' + attr.textContent + '"'` per attribute, in
document order, with no escaping. -/
def attrsText : List (String × String) → String
  | [] => ""
  | a :: rest => " " ++ a.1 ++ "=\"" ++ a.2 ++ "\"" ++ attrsText rest

/-- The indentation loop (domutils.js lines 230-236): `indentLevel` copies of
the configured indent unit (none when the level is not positive). -/
def repeatIndent (unit : String) (level : Int) : String :=
  String.join (List.replicate level.toNat unit)

/-- The mutable `buildInfo` record of `beautify` (domutils.js lines 163-168). -/
structure BuildInfo where
  indentText : String
  xmlText : String
  useSelfClosingElement : Bool
  indentLevel : Int

mutual
/-- Source `XmlBeautify.prototype._parseInternally` (domutils.js lines 190-301),
with the mutation of `buildInfo` made explicit state passing; consecutive
appends to `buildInfo.xmlText` are grouped into single concatenations.
On an element node: emit the indentation, the start tag with its attributes,
`' />'` for an empty element in self-closing mode and `'>'` otherwise, then
the value when `elementHasItsValue`, or a newline unless the element is empty
with self-closing mode off; recurse into the children collection with the
indent level raised by one and restored afterwards; finally emit the end tag
(none for a self-closing empty element), prefixed by the saved indentation
except in the inline leaf-with-text case, and a trailing newline.
On a character-data node (`tagName` undefined) only the indentation is
emitted: the whole tag block of lines 238-299 is skipped. -/
def parseInternally (element : XNode) (buildInfo : BuildInfo) : BuildInfo :=
  match element with
  | .elem tagName attributes childNodes =>
      let e := XNode.elem tagName attributes childNodes
      let indentText := repeatIndent buildInfo.indentText buildInfo.indentLevel
      let startText :=
        indentText ++ "<" ++ tagName ++ attrsText attributes
          ++ (if isEmptyElement e && buildInfo.useSelfClosingElement then " />" else ">")
          ++ (if elementHasItsValue e then valueOfElement e
              else if isEmptyElement e && !buildInfo.useSelfClosingElement then ""
              else "\n")
      let b5 : BuildInfo :=
        { buildInfo with
            xmlText := buildInfo.xmlText ++ startText,
            indentLevel := buildInfo.indentLevel + 1 }
      let b6 := parseChildren childNodes b5
      let b7 : BuildInfo := { b6 with indentLevel := b6.indentLevel - 1 }
      let endText :=
        if isEmptyElement e then
          if buildInfo.useSelfClosingElement then ""
          else "</" ++ tagName ++ ">" ++ "\n"
        else
          (if !(elementHasNoChildren e && elementHasValueOrChildren e) then indentText else "")
            ++ "</" ++ tagName ++ ">" ++ "\n"
      { b7 with xmlText := b7.xmlText ++ endText }
  | .text _ =>
      { buildInfo with
          xmlText := buildInfo.xmlText ++ repeatIndent buildInfo.indentText buildInfo.indentLevel }
  | .cdata _ =>
      { buildInfo with
          xmlText := buildInfo.xmlText ++ repeatIndent buildInfo.indentText buildInfo.indentLevel }

/-- The child loop of `_parseInternally` (domutils.js lines 269-277): the
source iterates `chElements = element.children`, the collection of *element*
children; this walk over the full `childNodes` list recursing exactly on its
element members visits the same nodes in the same order (see
`parseChildren_eq_filter_foldl`). -/
def parseChildren (childNodes : List XNode) (buildInfo : BuildInfo) : BuildInfo :=
  match childNodes with
  | [] => buildInfo
  | c :: rest => parseChildren rest (if isElem c then parseInternally c buildInfo else buildInfo)
end

mutual
/-- The text `parseInternally` appends to `buildInfo.xmlText` when run on
`element` with indent unit `unit`, self-closing flag `sc` and indent level
`level`: the pure (state-free) form of the renderer, related to
`parseInternally` by `parseInternally_eq`. -/
def renderNode (element : XNode) (unit : String) (sc : Bool) (level : Int) : String :=
  match element with
  | .elem tagName attributes childNodes =>
      let e := XNode.elem tagName attributes childNodes
      let indentText := repeatIndent unit level
      (indentText ++ "<" ++ tagName ++ attrsText attributes
          ++ (if isEmptyElement e && sc then " />" else ">")
          ++ (if elementHasItsValue e then valueOfElement e
              else if isEmptyElement e && !sc then ""
              else "\n"))
        ++ renderChildren childNodes unit sc (level + 1)
        ++ (if isEmptyElement e then
              if sc then "" else "</" ++ tagName ++ ">" ++ "\n"
            else
              (if !(elementHasNoChildren e && elementHasValueOrChildren e) then indentText else "")
                ++ "</" ++ tagName ++ ">" ++ "\n")
  | .text _ => repeatIndent unit level
  | .cdata _ => repeatIndent unit level

/-- The text the child loop appends: concatenation of `renderNode` over the
element members of the child-node list, in document order. -/
def renderChildren (childNodes : List XNode) (unit : String) (sc : Bool) (level : Int) : String :=
  match childNodes with
  | [] => ""
  | c :: rest =>
      (if isElem c then renderNode c unit sc level else "") ++ renderChildren rest unit sc level
end

/-- Modelled from the spec (§4.1, the wording of claim C5): like
`getEncoding`, but the search for the `"?>` terminator starts at the end of
the `encoding="` token — "the following `\"?>` marker" — instead of at the
start of the text.  Used to compare the code against the spec's words. -/
def findSubFrom (s sub : String) (start : Nat) : Int :=
  match findSub (s.toList.drop start) sub.toList with
  | some n => ((start + n : Nat) : Int)
  | none => -1

/-- Modelled from the spec (§4.1, the wording of claim C5): the substring of
the text strictly between the end of the first case-insensitive occurrence of
`encoding="` and the `"?>` marker that follows it. -/
def specEncoding (xmlText : String) : Option String :=
  if hasXmlDef xmlText = false then none
  else
    let encodingStartPos := jsIndexOf (jsToLower xmlText) "encoding=\"" + ("encoding=\"".length : Int)
    let encodingEndPos := findSubFrom xmlText "\"?>" encodingStartPos.toNat
    some (jsSubstr xmlText encodingStartPos (encodingEndPos - encodingStartPos))

/-- The recognized options of `beautify`'s `data` argument (domutils.js
lines 147-155); `none` in a field models an absent (undefined) property. -/
structure BeautifyData where
  indent : Option String
  useSelfClosingElement : Option Bool

/-- The indent-unit resolution of `beautify` (domutils.js lines 143, 147-150):
default two spaces, overridden only by a truthy `data.indent` (the empty
string is falsy in JavaScript and does not override). -/
def effectiveIndent : Option BeautifyData → String
  | none => "  "
  | some d =>
      match d.indent with
      | none => "  "
      | some s => if s == "" then "  " else s

/-- The self-closing flag resolution of `beautify` (domutils.js lines 145,
152-154): enabled only when `data.useSelfClosingElement == true`. -/
def effectiveUseSelfClosing : Option BeautifyData → Bool
  | none => false
  | some d => d.useSelfClosingElement == some true

/-- Source `XmlBeautify.prototype.beautify` (domutils.js lines 138-188). Parsing the
input text is delegated to the external `DOMParser`; `docRoot` is the parsed
root element (`doc.children[0]` in the source). When the raw input contains
`<?xml`, a normalized declaration with hard-coded version `1.0` and the
detected encoding is prepended, followed by a newline (`getD ""` is never
exercised: under `hasXmlDef` the encoding is `some`). -/
def beautify (xmlText : String) (docRoot : XNode) (data : Option BeautifyData) : String :=
  let indent := effectiveIndent data
  let useSelfClosingElement := effectiveUseSelfClosing data
  let xmlHeader : Option String :=
    if hasXmlDef xmlText then
      some ("<?xml version=\"1.0\" encoding=\"" ++ ((getEncoding xmlText).getD "") ++ "\"?>")
    else none
  let buildInfo := parseInternally docRoot
    { indentText := indent, xmlText := "",
      useSelfClosingElement := useSelfClosingElement, indentLevel := 0 }
  (match xmlHeader with
   | some h => h ++ "\n"
   | none => "") ++ buildInfo.xmlText

/-! ## General lemmas about the renderer -/

theorem string_append_assoc (a b c : String) : a ++ b ++ c = a ++ (b ++ c) := by
  apply String.ext
  simp [String.data_append, List.append_assoc]

mutual
/-- The function `parseInternally` only appends to the accumulated output and leaves every
other field of the build state unchanged; what it appends is `renderNode`. -/
theorem parseInternally_eq (element : XNode) (b : BuildInfo) :
    parseInternally element b
      = { b with xmlText :=
            b.xmlText ++ renderNode element b.indentText b.useSelfClosingElement b.indentLevel } := by
  match element with
  | .elem tagName attributes childNodes =>
      simp only [parseInternally, renderNode]
      rw [parseChildren_eq]
      simp [BuildInfo.mk.injEq, string_append_assoc]
  | .text s => simp [parseInternally, renderNode]
  | .cdata s => simp [parseInternally, renderNode]

/-- The function `parseChildren` only appends to the accumulated output and leaves every
other field of the build state unchanged; what it appends is `renderChildren`. -/
theorem parseChildren_eq (childNodes : List XNode) (b : BuildInfo) :
    parseChildren childNodes b
      = { b with xmlText :=
            b.xmlText ++ renderChildren childNodes b.indentText b.useSelfClosingElement b.indentLevel } := by
  match childNodes with
  | [] => simp [parseChildren, renderChildren, String.append_empty]
  | c :: rest =>
      simp only [parseChildren, renderChildren]
      cases hc : isElem c with
      | true =>
          rw [if_pos rfl, parseInternally_eq c, parseChildren_eq rest]
          simp [BuildInfo.mk.injEq, string_append_assoc]
      | false =>
          rw [if_neg (by simp [hc]), parseChildren_eq rest]
          simp [BuildInfo.mk.injEq, string_append_assoc, String.empty_append]
end

/-- The walk `parseChildren` over the full child-node list equals the source's
loop over the `element.children` collection (the element members, in order). -/
theorem parseChildren_eq_filter_foldl (childNodes : List XNode) (b : BuildInfo) :
    parseChildren childNodes b
      = (childNodes.filter isElem).foldl (fun acc c => parseInternally c acc) b := by
  induction childNodes generalizing b with
  | nil => rfl
  | cons c rest ih =>
      cases hc : isElem c
      · simp [parseChildren, List.filter_cons, hc, ih]
      · simp [parseChildren, List.filter_cons, hc, ih]

/-- Splitting off a tail after the first three components of the emitted
start-tag chain. -/
theorem append_head_shape (x a1 a2 a3 a4 a5 a6 a7 a8 : String) :
    ∃ rest, x ++ ((a1 ++ a2 ++ a3 ++ a4 ++ a5 ++ a6) ++ a7 ++ a8) = x ++ a1 ++ a2 ++ a3 ++ rest :=
  ⟨a4 ++ a5 ++ a6 ++ a7 ++ a8, by simp [string_append_assoc]⟩

/-- Collecting everything before the emitted end-tag chain into one block. -/
theorem append_tail_shape (x s1 s2 a1 a2 a3 a4 a5 : String) :
    ∃ mid, x ++ (s1 ++ s2 ++ (a1 ++ a2 ++ a3 ++ a4 ++ a5)) = x ++ mid ++ a1 ++ a2 ++ a3 ++ a4 ++ a5 :=
  ⟨s1 ++ s2, by simp [string_append_assoc]⟩

/-- On an element node the disjunctive `elementHasNoChildren` check equals
"the element-children collection is empty or the child-node list is empty". -/
theorem elementHasNoChildren_elem (tag : String) (attrs : List (String × String)) (cs : List XNode) :
    elementHasNoChildren (.elem tag attrs cs) = ((cs.filter isElem).isEmpty || cs.isEmpty) := by
  have h1 : ∀ l : List XNode, (!(jsCollectionHasItems (some l))) = l.isEmpty := by
    intro l; cases l <;> simp [jsCollectionHasItems]
  simp only [elementHasNoChildren, childrenAcc, childNodesAcc, h1]

/-- An element classified as having no children has no element children. -/
theorem filter_isElem_nil (tag : String) (attrs : List (String × String)) (cs : List XNode)
    (h : elementHasNoChildren (.elem tag attrs cs) = true) : cs.filter isElem = [] := by
  rw [elementHasNoChildren_elem] at h
  rcases Bool.or_eq_true_iff.mp h with h | h
  · exact List.isEmpty_iff.mp h
  · rw [List.isEmpty_iff.mp h]
    rfl

/-- The child walk emits nothing when the child list has no element members. -/
theorem renderChildren_of_filter_nil (cs : List XNode) (unit : String) (sc : Bool) (level : Int)
    (h : cs.filter isElem = []) : renderChildren cs unit sc level = "" := by
  induction cs with
  | nil => rfl
  | cons c rest ih =>
      cases hc : isElem c
      · rw [List.filter_cons, hc] at h
        simp only [renderChildren, hc]
        simp [ih (by simpa using h), String.empty_append]
      · rw [List.filter_cons, hc] at h
        simp at h

/-- When the element has a nonempty (blank-stripped) text value, the adjusted
text content is the raw `textContent`. -/
theorem adjustedTextContent_of_hasValue (e : XNode) (h : elementHasValueOrChildren e = true) :
    adjustedTextContent e = textContent e := by
  have h' : 0 < (adjustedTextContent e).length := by
    simpa [elementHasValueOrChildren] using h
  by_cases hb : ((blankReplaced (textContent e)).length == 0) = true
  · exfalso
    rw [adjustedTextContent.eq_def, if_pos hb] at h'
    simp at h'
  · rw [adjustedTextContent.eq_def, if_neg hb]

/-- Rendering of a leaf element with a text value: indentation, start tag with
attributes, the value, and the end tag immediately after the value, then one
newline — with no indentation or newline between value and end tag, for any
build state (in particular for either self-closing setting). -/
theorem leaf_render (tag : String) (attrs : List (String × String)) (cs : List XNode)
    (b : BuildInfo) (h : elementHasItsValue (.elem tag attrs cs) = true) :
    (parseInternally (.elem tag attrs cs) b).xmlText
      = b.xmlText ++ repeatIndent b.indentText b.indentLevel ++ "<" ++ tag ++ attrsText attrs
        ++ ">" ++ valueOfElement (.elem tag attrs cs) ++ "</" ++ tag ++ ">" ++ "\n" := by
  have hparts := Bool.and_eq_true_iff.mp (by simpa [elementHasItsValue] using h)
  have hnc : elementHasNoChildren (.elem tag attrs cs) = true := hparts.1
  have hval : elementHasValueOrChildren (.elem tag attrs cs) = true := hparts.2
  have hempty : isEmptyElement (.elem tag attrs cs) = false := by
    simp [isEmptyElement, hval]
  have hfil := filter_isElem_nil tag attrs cs hnc
  rw [parseInternally_eq]
  simp only [renderNode]
  rw [renderChildren_of_filter_nil cs _ _ _ hfil]
  simp [hempty, h, hnc, hval, string_append_assoc, String.append_empty, String.empty_append]

/-- A `jsIndexOf` result is never below `-1`. -/
theorem jsIndexOf_ge_neg_one (s sub : String) : -1 ≤ jsIndexOf s sub := by
  rw [jsIndexOf.eq_def]
  rcases findSub s.toList sub.toList with _ | n
  · simp
  · simp
    omega

/-- Dropping `k` characters shifts the first occurrence index by `k`, provided
the occurrence lies at or beyond position `k`. -/
theorem findSub_drop (k : Nat) (l sub : List Char) (g : Nat)
    (h : findSub l sub = some g) (hk : k ≤ g) : findSub (l.drop k) sub = some (g - k) := by
  induction k generalizing l g with
  | zero => simpa using h
  | succ k ih =>
      match l with
      | [] =>
          rw [findSub.eq_def] at h
          rcases hp : sub.isPrefixOf ([] : List Char) with _ | _
          · rw [hp] at h
            simp at h
          · rw [hp] at h
            simp at h
            omega
      | c :: t =>
          rw [findSub.eq_def] at h
          rcases hp : sub.isPrefixOf (c :: t) with _ | _
          · rw [hp] at h
            simp at h
            rcases h with ⟨g', hg', hfg⟩
            have hdk : (c :: t).drop (k + 1) = t.drop k := rfl
            rw [hdk]
            rw [ih t g' hg' (by omega)]
            congr 1
            omega
          · rw [hp] at h
            simp at h
            omega

/-! ## Claims -/

/-- Claim C1: for the input `<foo></foo>`, `useSelfClosingElement = true`
yields exactly `"<foo />\n"` (space before the slash, trailing newline, no end
tag) and `useSelfClosingElement = false` yields exactly `"<foo></foo>\n"`,
with no XML declaration line prepended in either case. -/
theorem claim1 :
    beautify "<foo></foo>" (.elem "foo" [] [])
        (some { indent := none, useSelfClosingElement := some true }) = "<foo />\n"
    ∧ beautify "<foo></foo>" (.elem "foo" [] [])
        (some { indent := none, useSelfClosingElement := some false }) = "<foo></foo>\n" :=
  ⟨by decide, by decide⟩

/-- Counterexample to claim C6 as stated: for `<name>Bob</name>` the
`childNodes` accessor reports one child node, yet `elementHasNoChildren` is
`true` (the source combines the two accessor checks with a disjunction, not a
conjunction). -/
theorem claim6_counterexample :
    elementHasNoChildren (.elem "name" [] [.text "Bob"]) = true
    ∧ jsCollectionHasItems (childNodesAcc (.elem "name" [] [.text "Bob"])) = true :=
  ⟨by decide, by decide⟩

/-- Claim C6 (amended): `elementHasNoChildren` is the disjunction of the two
accessor emptiness checks — true exactly when the element has no child
elements or no child nodes — which on an element node collapses to "no child
elements"; it is therefore true for elements whose only children are
character-data nodes. -/
theorem claim6 :
    ∀ (tag : String) (attrs : List (String × String)) (cs : List XNode),
      elementHasNoChildren (.elem tag attrs cs) = ((cs.filter isElem).isEmpty || cs.isEmpty)
      ∧ elementHasNoChildren (.elem tag attrs cs) = (cs.filter isElem).isEmpty := by
  intro tag attrs cs
  have h1 : ∀ l : List XNode, (!(jsCollectionHasItems (some l))) = l.isEmpty := by
    intro l; cases l <;> simp [jsCollectionHasItems]
  constructor
  · simp only [elementHasNoChildren, childrenAcc, childNodesAcc, h1]
  · simp only [elementHasNoChildren, childrenAcc, childNodesAcc, h1]
    cases cs <;> simp

/-- Counterexample to claim C7 as stated: running the renderer on the text
node `Bob` at indent level 1 emits exactly the indentation and not the node's
character data. -/
theorem claim7_counterexample :
    (parseInternally (.text "Bob")
        { indentText := "  ", xmlText := "", useSelfClosingElement := false, indentLevel := 1 }).xmlText
      = "  "
    ∧ hasSub (parseInternally (.text "Bob")
        { indentText := "  ", xmlText := "", useSelfClosingElement := false,
          indentLevel := 1 }).xmlText "Bob" = false :=
  ⟨by decide, by decide⟩

/-- Claim C7 (amended): for a text-only node the renderer emits exactly the
current indentation and never the node's character data (the whole tag block
is guarded by `tagName != undefined`); in the modelled environment the
recursion iterates element children only, so text nodes are never visited. -/
theorem claim7 :
    ∀ (s : String) (b : BuildInfo),
      parseInternally (.text s) b
        = { b with xmlText := b.xmlText ++ repeatIndent b.indentText b.indentLevel } := by
  intro s b
  rfl

/-- Claim C9: a call of the recursive renderer returns with the build state's
indent depth equal to its value before the call (the increment before the
child walk and the decrement after it are matched). -/
theorem claim9 :
    ∀ (element : XNode) (b : BuildInfo),
      (parseInternally element b).indentLevel = b.indentLevel := by
  intro element b
  rw [parseInternally_eq]

/-- Claim C10: a present configuration whose `indent` is the empty string (a
falsy value) falls back to the default two-space unit: the output equals the
output for an absent `indent` option, the resolved unit is `"  "`, and an
explicit `indent: ""` still produces two-space-indented output. -/
theorem claim10 :
    ∀ (xmlText : String) (docRoot : XNode) (sc : Option Bool),
      beautify xmlText docRoot (some { indent := some "", useSelfClosingElement := sc })
        = beautify xmlText docRoot (some { indent := none, useSelfClosingElement := sc })
      ∧ effectiveIndent (some { indent := some "", useSelfClosingElement := sc }) = "  "
      ∧ beautify "<u><v>w</v></u>" (.elem "u" [] [.elem "v" [] [.text "w"]])
          (some { indent := some "", useSelfClosingElement := sc })
        = "<u>\n  <v>w</v>\n</u>\n" := by
  intro xmlText docRoot sc
  refine ⟨?_, rfl, ?_⟩
  · simp [beautify, effectiveIndent, effectiveUseSelfClosing]
  · rcases sc with _ | b
    · decide
    · cases b <;> decide

/-- Claim C2: for the input `<name>Bob</name>` beautify returns exactly
`"<name>Bob</name>\n"`; in general, for every leaf element whose
blank-stripped text content is nonempty (`elementHasItsValue`), the end tag
is emitted immediately after the value, with no newline and no indentation
in between, for any build state (hence for either self-closing setting). -/
theorem claim2 :
    beautify "<name>Bob</name>" (.elem "name" [] [.text "Bob"]) none = "<name>Bob</name>\n"
    ∧ ∀ (tag : String) (attrs : List (String × String)) (cs : List XNode) (b : BuildInfo),
        elementHasItsValue (.elem tag attrs cs) = true →
        (parseInternally (.elem tag attrs cs) b).xmlText
          = b.xmlText ++ repeatIndent b.indentText b.indentLevel ++ "<" ++ tag ++ attrsText attrs
            ++ ">" ++ valueOfElement (.elem tag attrs cs) ++ "</" ++ tag ++ ">" ++ "\n" :=
  ⟨by decide, fun tag attrs cs b h => leaf_render tag attrs cs b h⟩

/-- Witness for claim C2 at the leaf element `<name>Bob</name>`. -/
theorem claim2_witness :
    elementHasItsValue (.elem "name" [] [.text "Bob"]) = true
    ∧ (parseInternally (.elem "name" [] [.text "Bob"])
        { indentText := "  ", xmlText := "", useSelfClosingElement := false,
          indentLevel := 0 }).xmlText
      = "<name>Bob</name>\n" := by
  refine ⟨by decide, ?_⟩
  rw [claim2.2 "name" [] [.text "Bob"]
    { indentText := "  ", xmlText := "", useSelfClosingElement := false, indentLevel := 0 }
    (by decide)]
  decide

/-- Claim C3: for `<a><b><c>x</c></b></a>` with indent unit `"  "` beautify
returns exactly the fully indented rendering; in general every start tag is
prefixed by exactly `indentLevel` copies of the indent unit, and every
non-inline end tag (element neither empty nor a leaf-with-text) is prefixed
by the same `indentLevel` copies. -/
theorem claim3 :
    beautify "<a><b><c>x</c></b></a>"
        (.elem "a" [] [.elem "b" [] [.elem "c" [] [.text "x"]]])
        (some { indent := some "  ", useSelfClosingElement := none })
      = "<a>\n  <b>\n    <c>x</c>\n  </b>\n</a>\n"
    ∧ (∀ (tag : String) (attrs : List (String × String)) (cs : List XNode) (b : BuildInfo),
        ∃ rest, (parseInternally (.elem tag attrs cs) b).xmlText
          = b.xmlText ++ repeatIndent b.indentText b.indentLevel ++ "<" ++ tag ++ rest)
    ∧ (∀ (tag : String) (attrs : List (String × String)) (cs : List XNode) (b : BuildInfo),
        isEmptyElement (.elem tag attrs cs) = false →
        elementHasItsValue (.elem tag attrs cs) = false →
        ∃ mid, (parseInternally (.elem tag attrs cs) b).xmlText
          = b.xmlText ++ mid ++ repeatIndent b.indentText b.indentLevel
            ++ "</" ++ tag ++ ">" ++ "\n") := by
  refine ⟨by decide, ?_, ?_⟩
  · intro tag attrs cs b
    rw [parseInternally_eq]
    simp only [renderNode]
    exact append_head_shape _ _ _ _ _ _ _ _ _
  · intro tag attrs cs b h1 h2
    have h2' : (elementHasNoChildren (.elem tag attrs cs)
        && elementHasValueOrChildren (.elem tag attrs cs)) = false := h2
    rw [parseInternally_eq]
    simp only [renderNode, h1, h2, h2', Bool.false_and, Bool.not_false, Bool.false_eq_true,
      if_false, if_true, ite_false, ite_true]
    exact append_tail_shape _ _ _ _ _ _ _ _

/-- Witness for claim C3 at the inner element `<b><c>x</c></b>` at depth 1. -/
theorem claim3_witness :
    isEmptyElement (.elem "b" [] [.elem "c" [] [.text "x"]]) = false
    ∧ elementHasItsValue (.elem "b" [] [.elem "c" [] [.text "x"]]) = false
    ∧ ∃ mid,
        (parseInternally (.elem "b" [] [.elem "c" [] [.text "x"]])
            { indentText := "  ", xmlText := "", useSelfClosingElement := false,
              indentLevel := 1 }).xmlText
          = "" ++ mid ++ repeatIndent "  " 1 ++ "</" ++ "b" ++ ">" ++ "\n" :=
  ⟨by decide, by decide,
    claim3.2.2 "b" [] [.elem "c" [] [.text "x"]]
      { indentText := "  ", xmlText := "", useSelfClosingElement := false, indentLevel := 1 }
      (by decide) (by decide)⟩

/-- Claim C4: when the raw input contains `<?xml`, the output of beautify is
the normalized declaration line `<?xml version="1.0" encoding="E"?>` — `E`
being exactly the string `getEncoding` extracts and the version the hard-coded
literal `1.0` — followed by a newline and the rendered tree; when the input
does not contain `<?xml`, no declaration line is prepended. -/
theorem claim4 :
    ∀ (xmlText : String) (docRoot : XNode) (data : Option BeautifyData),
      (hasXmlDef xmlText = true →
        ∃ E, getEncoding xmlText = some E
          ∧ beautify xmlText docRoot data
              = "<?xml version=\"1.0\" encoding=\"" ++ E ++ "\"?>" ++ "\n"
                ++ (parseInternally docRoot
                    { indentText := effectiveIndent data, xmlText := "",
                      useSelfClosingElement := effectiveUseSelfClosing data,
                      indentLevel := 0 }).xmlText)
      ∧ (hasXmlDef xmlText = false →
          beautify xmlText docRoot data
            = (parseInternally docRoot
                { indentText := effectiveIndent data, xmlText := "",
                  useSelfClosingElement := effectiveUseSelfClosing data,
                  indentLevel := 0 }).xmlText) := by
  intro xmlText docRoot data
  constructor
  · intro h
    have hsome : (getEncoding xmlText).isSome := by
      simp [getEncoding, h]
    obtain ⟨E, hE⟩ := Option.isSome_iff_exists.mp hsome
    refine ⟨E, hE, ?_⟩
    simp [beautify, h, hE]
  · intro h
    simp [beautify, h]

/-- Witness for claim C4 at `<?xml version="1.1" encoding="ISO-8859-1"?><a/>`
(declared version 1.1, emitted version 1.0, encoding preserved). -/
theorem claim4_witness :
    hasXmlDef "<?xml version=\"1.1\" encoding=\"ISO-8859-1\"?><a/>" = true
    ∧ (∃ E, getEncoding "<?xml version=\"1.1\" encoding=\"ISO-8859-1\"?><a/>" = some E
        ∧ beautify "<?xml version=\"1.1\" encoding=\"ISO-8859-1\"?><a/>" (.elem "a" [] []) none
            = "<?xml version=\"1.0\" encoding=\"" ++ E ++ "\"?>" ++ "\n"
              ++ (parseInternally (.elem "a" [] [])
                  { indentText := effectiveIndent none, xmlText := "",
                    useSelfClosingElement := effectiveUseSelfClosing none,
                    indentLevel := 0 }).xmlText)
    ∧ beautify "<?xml version=\"1.1\" encoding=\"ISO-8859-1\"?><a/>" (.elem "a" [] []) none
        = "<?xml version=\"1.0\" encoding=\"ISO-8859-1\"?>\n<a></a>\n" :=
  ⟨by decide,
    (claim4 "<?xml version=\"1.1\" encoding=\"ISO-8859-1\"?><a/>" (.elem "a" [] []) none).1
      (by decide),
    by decide⟩

/-- Counterexample to claim C5 as stated: for an input whose first `"?>`
occurrence lies before the `encoding="` token, `getEncoding` returns the
empty string, not the substring up to the `"?>` marker that follows the
encoding token (which `specEncoding`, modelled from the spec's words,
returns). -/
theorem claim5_counterexample :
    getEncoding "x\"?>y<?xml encoding=\"UTF-8\"?>" = some ""
    ∧ specEncoding "x\"?>y<?xml encoding=\"UTF-8\"?>" = some "UTF-8" :=
  ⟨by decide, by decide⟩

/-- Claim C5 (amended): `getEncoding` returns null exactly when the text does
not contain `<?xml`; otherwise it takes the substring from just past the
first case-insensitive `encoding="` up to the first `"?>` occurrence in the
whole text — which agrees with "the following `"?>` marker" whenever that
first occurrence does not lie before the end of the encoding token. -/
theorem claim5 :
    ∀ s : String,
      (getEncoding s = none ↔ hasXmlDef s = false)
      ∧ (hasXmlDef s = true →
          jsIndexOf (jsToLower s) "encoding=\"" + ("encoding=\"".length : Int)
              ≤ jsIndexOf s "\"?>" →
          getEncoding s = specEncoding s) := by
  intro s
  constructor
  · constructor
    · intro h
      cases hx : hasXmlDef s
      · rfl
      · rw [getEncoding.eq_def] at h
        simp [hx] at h
    · intro h
      simp [getEncoding, h]
  · intro h hle
    have hlen : ("encoding=\"".length : Int) = 10 := by decide
    have hP0 : 0 ≤ jsIndexOf (jsToLower s) "encoding=\"" + ("encoding=\"".length : Int) := by
      have := jsIndexOf_ge_neg_one (jsToLower s) "encoding=\""
      omega
    have hgpos : 0 ≤ jsIndexOf s "\"?>" := le_trans hP0 hle
    obtain ⟨g, hg⟩ : ∃ g : Nat, findSub s.toList ("\"?>".toList) = some g := by
      rcases hf : findSub s.toList ("\"?>".toList) with _ | g
      · exfalso
        rw [jsIndexOf.eq_def, hf] at hgpos
        simp at hgpos
      · exact ⟨g, rfl⟩
    have hgval : jsIndexOf s "\"?>" = (g : Int) := by
      rw [jsIndexOf.eq_def, hg]
    have hkg : (jsIndexOf (jsToLower s) "encoding=\"" + ("encoding=\"".length : Int)).toNat ≤ g := by
      rw [hgval] at hle
      omega
    have hdrop := findSub_drop
      (jsIndexOf (jsToLower s) "encoding=\"" + ("encoding=\"".length : Int)).toNat
      s.toList ("\"?>".toList) g hg hkg
    have hfrom : findSubFrom s "\"?>"
        (jsIndexOf (jsToLower s) "encoding=\"" + ("encoding=\"".length : Int)).toNat
        = (g : Int) := by
      rw [findSubFrom.eq_def, hdrop]
      simp
      omega
    simp only [getEncoding, specEncoding, h, Bool.true_eq_false, if_false, ite_false]
    rw [hfrom, hgval]

/-- Witness for claim C5 at the well-formed declaration
`<?xml version="1.0" encoding="UTF-8"?>`. -/
theorem claim5_witness :
    hasXmlDef "<?xml version=\"1.0\" encoding=\"UTF-8\"?>" = true
    ∧ jsIndexOf (jsToLower "<?xml version=\"1.0\" encoding=\"UTF-8\"?>") "encoding=\""
        + ("encoding=\"".length : Int)
      ≤ jsIndexOf "<?xml version=\"1.0\" encoding=\"UTF-8\"?>" "\"?>"
    ∧ getEncoding "<?xml version=\"1.0\" encoding=\"UTF-8\"?>"
        = specEncoding "<?xml version=\"1.0\" encoding=\"UTF-8\"?>" :=
  ⟨by decide, by decide,
    (claim5 "<?xml version=\"1.0\" encoding=\"UTF-8\"?>").2 (by decide) (by decide)⟩

/-- Claim C8: for every leaf element with a text value, the emitted value is
the aggregated text content wrapped in a single fresh CDATA pair when the
inner markup contains both `<![CDATA[` and `]]>`, and the plain aggregated
text content otherwise; the rendering places that value between start and end
tag. -/
theorem claim8 :
    ∀ (tag : String) (attrs : List (String × String)) (cs : List XNode) (b : BuildInfo),
      elementHasItsValue (.elem tag attrs cs) = true →
      (valueOfElement (.elem tag attrs cs)
          = (if hasSub (serializeNodeList cs) "<![CDATA[" && hasSub (serializeNodeList cs) "]]>" then
              "<![CDATA[" ++ textContent (.elem tag attrs cs) ++ "]]>"
            else textContent (.elem tag attrs cs)))
      ∧ (parseInternally (.elem tag attrs cs) b).xmlText
          = b.xmlText ++ repeatIndent b.indentText b.indentLevel ++ "<" ++ tag ++ attrsText attrs
            ++ ">" ++ valueOfElement (.elem tag attrs cs) ++ "</" ++ tag ++ ">" ++ "\n" := by
  intro tag attrs cs b h
  have hval : elementHasValueOrChildren (.elem tag attrs cs) = true :=
    (Bool.and_eq_true_iff.mp (by simpa [elementHasItsValue] using h)).2
  have hadj := adjustedTextContent_of_hasValue (.elem tag attrs cs) hval
  constructor
  · simp [valueOfElement, h, innerHTML, hadj]
  · exact leaf_render tag attrs cs b h

/-- Witness for claim C8 at `<note><![CDATA[hi]]></note>` (CDATA re-wrap) —
the inner markup contains both markers, so the value is the re-wrapped
aggregated text. -/
theorem claim8_witness :
    elementHasItsValue (.elem "note" [] [.cdata "hi"]) = true
    ∧ valueOfElement (.elem "note" [] [.cdata "hi"]) = "<![CDATA[hi]]>"
    ∧ (parseInternally (.elem "note" [] [.cdata "hi"])
        { indentText := "  ", xmlText := "", useSelfClosingElement := false,
          indentLevel := 0 }).xmlText
      = "<note><![CDATA[hi]]></note>\n" := by
  refine ⟨by decide, ?_, ?_⟩
  · rw [(claim8 "note" [] [.cdata "hi"]
      { indentText := "  ", xmlText := "", useSelfClosingElement := false, indentLevel := 0 }
      (by decide)).1]
    decide
  · rw [(claim8 "note" [] [.cdata "hi"]
      { indentText := "  ", xmlText := "", useSelfClosingElement := false, indentLevel := 0 }
      (by decide)).2]
    decide

end DomUtils
